import Mathlib

/-!
Verification of the layout post-processing tool (src/layout_postproc.py)
against its specification.  The Python source is shallowly embedded:
floating point numbers are modelled as rationals, mutable bound-keeping
lists `[minX, minY, maxX, maxY]` as a four-field structure of optional
rationals, and `sys.exit(1)` failures as `Except.error`.
-/

namespace LayoutPostproc

/-- Tags that get stripped from the tree during traversal
(`strip_tags = ['text']` in the source). -/
def strip_tags : List String := ["text"]

/-- Tags that get skipped during traversal
(`ignore_tags = ['title', 'desc']` in the source). -/
def ignore_tags : List String := ["title", "desc"]

/-- The bound-keeping array `[MinX, MinY, MaxX, MaxY]` of the source, where
Python `None` is `Option.none`. -/
structure Bounds where
  minX : Option ℚ
  minY : Option ℚ
  maxX : Option ℚ
  maxY : Option ℚ
deriving DecidableEq, Repr

/-- The fresh bound array `[None, None, None, None]` allocated by the source. -/
def emptyBounds : Bounds := ⟨none, none, none, none⟩

/-- Python comparison `a < b` on two optional floats.  Both operands are set in
every evaluation the source can reach without raising: with `None` on either
side CPython raises `TypeError`; that unreachable case is modelled as `false`
and no theorem below depends on it. -/
def pyLt (a b : Option ℚ) : Bool :=
  match a, b with
  | some x, some y => decide (x < y)
  | _, _ => false

/-- Python comparison `a > b` on two optional floats, with the same `None`
caveat as `pyLt`. -/
def pyGt (a b : Option ℚ) : Bool :=
  match a, b with
  | some x, some y => decide (x > y)
  | _, _ => false

/-- `merge_bounds(dest, src)` of the source, returning the mutated `dest`.
Note that, exactly as in the source, all four guards test `src[0] is not None`
(the source minimum-X presence), not the presence of the field being merged. -/
def merge_bounds (dest src : Bounds) : Bounds where
  minX := if src.minX.isSome && (dest.minX.isNone || pyLt src.minX dest.minX)
    then src.minX else dest.minX
  minY := if src.minX.isSome && (dest.minY.isNone || pyLt src.minY dest.minY)
    then src.minY else dest.minY
  maxX := if src.minX.isSome && (dest.maxX.isNone || pyGt src.maxX dest.maxX)
    then src.maxX else dest.maxX
  maxY := if src.minX.isSome && (dest.maxY.isNone || pyGt src.maxY dest.maxY)
    then src.maxY else dest.maxY

/-- `update_bounds(dest, point)` of the source, returning the mutated `dest`;
the complex number `point` is a pair (real, imag). -/
def update_bounds (dest : Bounds) (point : ℚ × ℚ) : Bounds where
  minX := match dest.minX with
    | none => some point.1
    | some v => if point.1 < v then some point.1 else some v
  minY := match dest.minY with
    | none => some point.2
    | some v => if point.2 < v then some point.2 else some v
  maxX := match dest.maxX with
    | none => some point.1
    | some v => if point.1 > v then some point.1 else some v
  maxY := match dest.maxY with
    | none => some point.2
    | some v => if point.2 > v then some point.2 else some v

/-- The ratio-checking core of `analyze_scaling` (source lines 78-97), taking
the width and height already resolved to millimeters by `resolve_dimensions`
together with the last two viewBox entries; the string parsing that produces
these four numbers is not modelled.  Returns `(width, height, result)` where
`result = width / viewbox_width` is the millimeters-per-user-unit factor, or
fails when the Y ratio is not exactly equal to the X ratio. -/
def analyze_scaling_core (width height viewbox_width viewbox_height : ℚ) :
    Except String (ℚ × ℚ × ℚ) :=
  let result := width / viewbox_width
  if height / viewbox_height ≠ result then
    .error "Unequal X/Y scaling is not supported"
  else
    .ok (width, height, result)

/-- The reportlab length of one millimeter in points, `mm = 72 / 25.4`. -/
def mm : ℚ := 72 / (254 / 10)

/-- The reportlab A4 page size in points, `(210*mm, 297*mm)`. -/
def A4 : ℚ × ℚ := (210 * mm, 297 * mm)

/-- `decide_svg_xy(width, height, padding, position)` of the source: the
page coordinates, in points, of the spot where the top-left corner of the
content should be rendered.  An unrecognized position name falls off the end
of the if chain (Python returns `None`). -/
def decide_svg_xy (width height padding : ℚ) (position : String) : Option (ℚ × ℚ) :=
  if position = "TL" then some (padding * mm, padding * mm)
  else if position = "TC" then some (A4.1 / 2 - width * mm / 2, padding * mm)
  else if position = "TR" then some (A4.1 - width * mm - padding * mm, padding * mm)
  else if position = "CL" then some (padding * mm, A4.2 / 2 - height * mm / 2)
  else if position = "CC" then some (A4.1 / 2 - width * mm / 2, A4.2 / 2 - height * mm / 2)
  else if position = "CR" then some (A4.1 - width * mm - padding * mm, A4.2 / 2 - height * mm / 2)
  else if position = "BL" then some (padding * mm, A4.2 - height * mm - padding * mm)
  else if position = "BC" then some (A4.1 / 2 - width * mm / 2, A4.2 - height * mm - padding * mm)
  else if position = "BR" then some (A4.1 - width * mm - padding * mm, A4.2 - height * mm - padding * mm)
  else none

/-- The quantities the layout part of `main` (source lines 272-328) derives
from the measured global bounds: the translation offsets, the new internal
(user-unit) canvas size, the new physical size in millimeters, and the
geometry of the synthesized border rectangle. -/
structure LayoutPlan where
  x_off : ℚ
  y_off : ℚ
  uuwidth : ℚ
  uuheight : ℚ
  mmwidth : ℚ
  mmheight : ℚ
  rect_x : ℚ
  rect_y : ℚ
  rect_w : ℚ
  rect_h : ℚ
  rect_stroke : ℚ
deriving DecidableEq, Repr

/-- The layout computation of `main` (source lines 272-328), starting from the
measured global bounds `(minX, minY, maxX, maxY)`, the border thickness and
border gap in millimeters, and the millimeters-per-user-unit factor.  The
first step is the gap reset `if rect_width_mm == 0: rect_padding_mm = 0`. -/
def layout_plan (minX minY maxX maxY : ℚ)
    (rect_width_mm rect_padding_mm0 mm_per_uu : ℚ) : LayoutPlan :=
  let rect_padding_mm := if rect_width_mm = 0 then 0 else rect_padding_mm0
  let x_off := -minX + (1 / mm_per_uu) * (rect_width_mm + rect_padding_mm)
  let y_off := -minY + (1 / mm_per_uu) * (rect_width_mm + rect_padding_mm)
  let uuwidth := (maxX - minX) + (1 / mm_per_uu) * (rect_padding_mm * 2 + rect_width_mm * 2)
  let uuheight := (maxY - minY) + (1 / mm_per_uu) * (rect_padding_mm * 2 + rect_width_mm * 2)
  let mmwidth := mm_per_uu * uuwidth
  let mmheight := mm_per_uu * uuheight
  let rect_width_uu := rect_width_mm * (1 / mm_per_uu)
  { x_off := x_off, y_off := y_off
    uuwidth := uuwidth, uuheight := uuheight
    mmwidth := mmwidth, mmheight := mmheight
    rect_x := rect_width_uu / 2, rect_y := rect_width_uu / 2
    rect_w := uuwidth - rect_width_uu, rect_h := uuheight - rect_width_uu
    rect_stroke := rect_width_uu }

/-- A parsed svg.path drawing command.  `p0` and `p1` model the `.start` and
`.end` attributes (`end` is reserved in Lean); `cubic` additionally carries its
two control points, `arc` its radius pair, and `quadratic` stands for the
svg.path command kind that is outside the source's `supported_commands` list. -/
inductive PathCmd where
  | move (p0 p1 : ℚ × ℚ)
  | line (p0 p1 : ℚ × ℚ)
  | close (p0 p1 : ℚ × ℚ)
  | cubic (p0 c1 c2 p1 : ℚ × ℚ)
  | arc (p0 rad p1 : ℚ × ℚ)
  | quadratic (p0 c p1 : ℚ × ℚ)
deriving DecidableEq, Repr

/-- The `.start` attribute of a command. -/
def PathCmd.start : PathCmd → ℚ × ℚ
  | .move p0 _ => p0
  | .line p0 _ => p0
  | .close p0 _ => p0
  | .cubic p0 _ _ _ => p0
  | .arc p0 _ _ => p0
  | .quadratic p0 _ _ => p0

/-- The `.end` attribute of a command. -/
def PathCmd.endP : PathCmd → ℚ × ℚ
  | .move _ p1 => p1
  | .line _ p1 => p1
  | .close _ p1 => p1
  | .cubic _ _ _ p1 => p1
  | .arc _ _ p1 => p1
  | .quadratic _ _ p1 => p1

/-- A numeric stand-in for `type(command)`. -/
def PathCmd.kind : PathCmd → Nat
  | .move _ _ => 0
  | .line _ _ => 1
  | .close _ _ => 2
  | .cubic _ _ _ _ => 3
  | .arc _ _ _ => 4
  | .quadratic _ _ _ => 5

/-- The membership test `type(command) in supported_commands` of `handle_path`:
true for Move, Line, Close, CubicBezier and Arc, false otherwise. -/
def PathCmd.supported : PathCmd → Bool
  | .quadratic _ _ _ => false
  | _ => true

/-- The data of a command that `handle_path` ever reads: its type, its start
point and its end point.  Control data is not part of the skeleton. -/
def PathCmd.skeleton (c : PathCmd) : Nat × (ℚ × ℚ) × (ℚ × ℚ) :=
  (c.kind, c.start, c.endP)

/-- Offsetting a point on both axes. -/
def shiftPoint (x_off y_off : ℚ) (p : ℚ × ℚ) : ℚ × ℚ :=
  (p.1 + x_off, p.2 + y_off)

/-- `manip_start_end(command, x_off, y_off)` of the source: shifts the start
and end points of the command; control data is left untouched, exactly as in
the source. -/
def manip_start_end (c : PathCmd) (x_off y_off : ℚ) : PathCmd :=
  match c with
  | .move p0 p1 => .move (shiftPoint x_off y_off p0) (shiftPoint x_off y_off p1)
  | .line p0 p1 => .line (shiftPoint x_off y_off p0) (shiftPoint x_off y_off p1)
  | .close p0 p1 => .close (shiftPoint x_off y_off p0) (shiftPoint x_off y_off p1)
  | .cubic p0 c1 c2 p1 => .cubic (shiftPoint x_off y_off p0) c1 c2 (shiftPoint x_off y_off p1)
  | .arc p0 rad p1 => .arc (shiftPoint x_off y_off p0) rad (shiftPoint x_off y_off p1)
  | .quadratic p0 c p1 => .quadratic (shiftPoint x_off y_off p0) c (shiftPoint x_off y_off p1)

/-- Prepends an element to the list inside a successful walk result, modelling
that the processed element stays in (or re-enters) its parent. -/
def consOk {α : Type} (a : α) : Except String (List α × Bounds) → Except String (List α × Bounds)
  | .ok (l, b) => .ok (a :: l, b)
  | .error msg => .error msg

/-- The command loop of `handle_path` (source lines 147-173) over the parsed
command list, carrying the mutable `bounds` array: each supported command
either has its start and end shifted (transform mode) or folded into the
bounds (measure mode); an unsupported command aborts the run. -/
def handle_path_go (bounds_mode : Bool) (x_off y_off : ℚ) (bounds : Bounds) :
    List PathCmd → Except String (List PathCmd × Bounds)
  | [] => .ok ([], bounds)
  | c :: rest =>
    if !c.supported then .error "Encountered unsupported path command"
    else if bounds_mode then
      consOk c (handle_path_go bounds_mode x_off y_off
        (update_bounds (update_bounds bounds c.start) c.endP) rest)
    else
      consOk (manip_start_end c x_off y_off)
        (handle_path_go bounds_mode x_off y_off bounds rest)

/-- `handle_path(element, bounds_mode, x_off, y_off)` of the source, acting on
the parsed command list of the element's `d` attribute: returns the resulting
command list (rewritten in transform mode, untouched in measure mode) together
with the bounds computed from a fresh `[None, None, None, None]` array. -/
def handle_path (cmds : List PathCmd) (bounds_mode : Bool) (x_off y_off : ℚ) :
    Except String (List PathCmd × Bounds) :=
  handle_path_go bounds_mode x_off y_off emptyBounds cmds

/-- `handle_circle(element, bounds_mode, x_off, y_off)` of the source, acting
on the circle's `cx`/`cy` attributes: the first component is the resulting
center stored in the element (shifted in transform mode, untouched in measure
mode), the second the center point returned in measure mode.  The radius
attribute is never read. -/
def handle_circle (cx cy : ℚ) (bounds_mode : Bool) (x_off y_off : ℚ) :
    (ℚ × ℚ) × (ℚ × ℚ) :=
  if bounds_mode then ((cx, cy), (cx, cy))
  else ((cx + x_off, cy + y_off), (cx, cy))

/-- An element of the document tree.  The walker dispatches on the tag string,
so the constructor encodes the tag: `group` is tag `g`, `path` is tag `path`
with its parsed `d` attribute, `circle` is tag `circle` with its `cx`, `cy`
and `r` attributes, and `misc t` is an element with any other tag `t` (the
representation keeps `t` outside of g/path/circle). -/
inductive Elem where
  | group (children : List Elem)
  | path (cmds : List PathCmd)
  | circle (cx cy r : ℚ)
  | misc (tag : String)
deriving Repr

/-- The (namespace-normalized) tag of an element. -/
def Elem.tag : Elem → String
  | .group _ => "g"
  | .path _ => "path"
  | .circle _ _ _ => "circle"
  | .misc t => t

/-- `walk_group(group, bounds_mode, x_off, y_off)` of the source, expressed on
the suffix of children still to be visited; returns the children left in the
group after the pass together with the final bounds accumulator.  Removal of a
strip-tagged child while iterating shifts the remaining children one slot left
under CPython's index-based iterator, so the sibling right after the removed
child stays in the group but is skipped by the loop; the strip branch below is
exactly that behavior. -/
def walk_list (bounds_mode : Bool) (x_off y_off : ℚ) (bounds : Bounds) :
    List Elem → Except String (List Elem × Bounds)
  | [] => .ok ([], bounds)
  | e :: rest =>
    if e.tag ∈ ignore_tags then
      consOk e (walk_list bounds_mode x_off y_off bounds rest)
    else if e.tag ∈ strip_tags then
      match rest with
      | [] => .ok ([], bounds)
      | f :: rest2 => consOk f (walk_list bounds_mode x_off y_off bounds rest2)
    else
      match e with
      | .group cs =>
        match walk_list bounds_mode x_off y_off emptyBounds cs with
        | .error msg => .error msg
        | .ok (cs2, group_bounds) =>
          consOk (.group cs2) (walk_list bounds_mode x_off y_off
            (if bounds_mode then merge_bounds bounds group_bounds else bounds) rest)
      | .path cmds =>
        match handle_path cmds bounds_mode x_off y_off with
        | .error msg => .error msg
        | .ok (cmds2, path_bounds) =>
          consOk (.path cmds2) (walk_list bounds_mode x_off y_off
            (if bounds_mode then merge_bounds bounds path_bounds else bounds) rest)
      | .circle cx cy r =>
        consOk (.circle (handle_circle cx cy bounds_mode x_off y_off).1.1
            (handle_circle cx cy bounds_mode x_off y_off).1.2 r)
          (walk_list bounds_mode x_off y_off
            (if bounds_mode then
              update_bounds bounds (handle_circle cx cy bounds_mode x_off y_off).2
            else bounds) rest)
      | .misc _ => .error "Encountered unknown element"
termination_by l => sizeOf l
decreasing_by all_goals (simp_wf; try omega)

/-- The measuring loop of `main` (source lines 284-288) over the root's
children: only children whose tag is exactly `g` are walked in measure mode
and merged into the running global bounds; every other top-level child is left
alone. -/
def measure_root_go (global_bounds : Bounds) :
    List Elem → Except String (List Elem × Bounds)
  | [] => .ok ([], global_bounds)
  | Elem.group cs :: rest =>
    match walk_list true 0 0 emptyBounds cs with
    | .error msg => .error msg
    | .ok (cs2, b) =>
      consOk (Elem.group cs2) (measure_root_go (merge_bounds global_bounds b) rest)
  | e :: rest => consOk e (measure_root_go global_bounds rest)

/-- The measure pass of `main`, started with the fresh
`global_bounds = [None, None, None, None]`. -/
def measure_root (children : List Elem) : Except String (List Elem × Bounds) :=
  measure_root_go emptyBounds children

/-- Shifting a bound array by a fixed offset on each axis. -/
def shiftBounds (x_off y_off : ℚ) (b : Bounds) : Bounds where
  minX := b.minX.map (fun v => v + x_off)
  minY := b.minY.map (fun v => v + y_off)
  maxX := b.maxX.map (fun v => v + x_off)
  maxY := b.maxY.map (fun v => v + y_off)

/-- No element of the tree, at any depth, carries a strip-listed tag. -/
def noStripL : List Elem → Bool
  | [] => true
  | e :: rest =>
    (match e with
     | .group cs => noStripL cs
     | .misc t => !(decide (t ∈ strip_tags))
     | _ => true) && noStripL rest
termination_by l => sizeOf l
decreasing_by all_goals (simp_wf; try omega)

/-- A bound array as actually produced by the traversal: either fully unset or
fully set.  `update_bounds` sets all four fields at once, so partially set
arrays never arise from the walker itself. -/
def Bounds.uniform (b : Bounds) : Prop :=
  b = emptyBounds ∨ ∃ x0 y0 x1 y1 : ℚ, b = ⟨some x0, some y0, some x1, some y1⟩

/-- On two fully set bound arrays, `merge_bounds` is the componentwise
min/min/max/max. -/
theorem merge_bounds_full (a0 a1 a2 a3 b0 b1 b2 b3 : ℚ) :
    merge_bounds ⟨some a0, some a1, some a2, some a3⟩ ⟨some b0, some b1, some b2, some b3⟩ =
      ⟨some (min a0 b0), some (min a1 b1), some (max a2 b2), some (max a3 b3)⟩ := by
  simp only [merge_bounds, pyLt, pyGt, Option.isSome_some, Option.isNone_some,
    Bool.true_and, Bool.or_eq_true, decide_eq_true_eq, Bounds.mk.injEq,
    Bool.false_eq_true, false_or, gt_iff_lt]
  refine ⟨?_, ?_, ?_, ?_⟩ <;> split_ifs with h
  · rw [min_eq_right h.le]
  · rw [min_eq_left (le_of_not_lt h)]
  · rw [min_eq_right h.le]
  · rw [min_eq_left (le_of_not_lt h)]
  · rw [max_eq_right h.le]
  · rw [max_eq_left (le_of_not_lt h)]
  · rw [max_eq_right h.le]
  · rw [max_eq_left (le_of_not_lt h)]

/-- Merging a fully unset source is a no-op, for every destination. -/
theorem merge_bounds_empty_src (d : Bounds) : merge_bounds d emptyBounds = d := by
  simp [merge_bounds, emptyBounds, pyLt, pyGt]

/-- Merging into a fully unset destination copies a fully set source. -/
theorem merge_bounds_empty_dest (b0 b1 b2 b3 : ℚ) :
    merge_bounds emptyBounds ⟨some b0, some b1, some b2, some b3⟩ =
      ⟨some b0, some b1, some b2, some b3⟩ := by
  simp [merge_bounds, emptyBounds, pyLt, pyGt]

/-- Dropping the prepended element recovers the bounds of a walk result. -/
theorem consOk_map_snd {α : Type} (a : α) (r : Except String (List α × Bounds)) :
    (consOk a r).map Prod.snd = r.map Prod.snd := by
  cases r with
  | ok p => rfl
  | error msg => rfl

/-- Shifting the empty bound array is a no-op. -/
theorem shiftBounds_empty (dx dy : ℚ) : shiftBounds dx dy emptyBounds = emptyBounds := rfl

/-- One minimum-keeping field of `update_bounds` commutes with a shift. -/
theorem optMinUpd (d x : ℚ) (o : Option ℚ) :
    (match o.map (fun v => v + d) with
      | none => some (x + d)
      | some v => if x + d < v then some (x + d) else some v) =
    (match o with
      | none => some x
      | some v => if x < v then some x else some v).map (fun v => v + d) := by
  cases o with
  | none => rfl
  | some v =>
    simp only [Option.map_some']
    by_cases h : x < v
    · rw [if_pos h, if_pos (add_lt_add_right h d), Option.map_some']
    · rw [if_neg h, if_neg (fun hc => h (lt_of_add_lt_add_right hc)), Option.map_some']

/-- One maximum-keeping field of `update_bounds` commutes with a shift. -/
theorem optMaxUpd (d x : ℚ) (o : Option ℚ) :
    (match o.map (fun v => v + d) with
      | none => some (x + d)
      | some v => if x + d > v then some (x + d) else some v) =
    (match o with
      | none => some x
      | some v => if x > v then some x else some v).map (fun v => v + d) := by
  cases o with
  | none => rfl
  | some v =>
    simp only [Option.map_some']
    by_cases h : x > v
    · rw [if_pos h, if_pos (add_lt_add_right h d), Option.map_some']
    · rw [if_neg h, if_neg (fun hc => h (lt_of_add_lt_add_right hc)), Option.map_some']

/-- Folding a shifted point into shifted bounds is the shift of the fold. -/
theorem update_bounds_shift (dx dy : ℚ) (b : Bounds) (p : ℚ × ℚ) :
    update_bounds (shiftBounds dx dy b) (shiftPoint dx dy p) =
      shiftBounds dx dy (update_bounds b p) := by
  obtain ⟨b0, b1, b2, b3⟩ := b
  obtain ⟨px, py⟩ := p
  dsimp only [update_bounds, shiftBounds, shiftPoint]
  rw [Bounds.mk.injEq]
  exact ⟨optMinUpd dx px b0, optMinUpd dy py b1, optMaxUpd dx px b2, optMaxUpd dy py b3⟩

/-- The strict comparison of two optionally present floats is invariant under
a common shift. -/
theorem pyLt_shift (dx : ℚ) (x y : Option ℚ) :
    pyLt (x.map (fun v => v + dx)) (y.map (fun v => v + dx)) = pyLt x y := by
  cases x <;> cases y <;> simp [pyLt, add_lt_add_iff_right]

/-- The reverse comparison is likewise shift-invariant. -/
theorem pyGt_shift (dx : ℚ) (x y : Option ℚ) :
    pyGt (x.map (fun v => v + dx)) (y.map (fun v => v + dx)) = pyGt x y := by
  cases x <;> cases y <;> simp [pyGt, add_lt_add_iff_right]

/-- Merging two bound arrays shifted by a common offset is the shift of the
merge. -/
theorem merge_bounds_shift (dx dy : ℚ) (a b : Bounds) :
    merge_bounds (shiftBounds dx dy a) (shiftBounds dx dy b) =
      shiftBounds dx dy (merge_bounds a b) := by
  obtain ⟨a0, a1, a2, a3⟩ := a
  obtain ⟨b0, b1, b2, b3⟩ := b
  simp only [merge_bounds, shiftBounds, Bounds.mk.injEq, pyLt_shift, pyGt_shift,
    Option.isSome_map', Option.isNone_map', apply_ite (Option.map (fun v => v + dx)),
    apply_ite (Option.map (fun v => v + dy))]

/-- Unfolding: walking an empty child list returns the accumulator. -/
theorem walk_nil (bm : Bool) (xo yo : ℚ) (acc : Bounds) :
    walk_list bm xo yo acc [] = .ok ([], acc) := by
  rw [walk_list.eq_def]

/-- Unfolding: an ignore-tagged child is kept and skipped. -/
theorem walk_ignore {e : Elem} (h : e.tag ∈ ignore_tags) (bm : Bool) (xo yo : ℚ)
    (acc : Bounds) (rest : List Elem) :
    walk_list bm xo yo acc (e :: rest) = consOk e (walk_list bm xo yo acc rest) := by
  rw [walk_list.eq_def]
  simp [h]

/-- Unfolding: a nested group is walked with a fresh bound array, merged in
measure mode, and re-inserted. -/
theorem walk_group_cons (bm : Bool) (xo yo : ℚ) (acc : Bounds) (cs rest : List Elem) :
    walk_list bm xo yo acc (Elem.group cs :: rest) =
      match walk_list bm xo yo emptyBounds cs with
      | .error msg => .error msg
      | .ok (cs2, gb) =>
        consOk (Elem.group cs2)
          (walk_list bm xo yo (if bm then merge_bounds acc gb else acc) rest) := by
  rw [walk_list.eq_def]
  simp [Elem.tag, ignore_tags, strip_tags]

/-- Unfolding: a path child is handled and merged in measure mode. -/
theorem walk_path_cons (bm : Bool) (xo yo : ℚ) (acc : Bounds) (cmds : List PathCmd)
    (rest : List Elem) :
    walk_list bm xo yo acc (Elem.path cmds :: rest) =
      match handle_path cmds bm xo yo with
      | .error msg => .error msg
      | .ok (cmds2, pb) =>
        consOk (Elem.path cmds2)
          (walk_list bm xo yo (if bm then merge_bounds acc pb else acc) rest) := by
  rw [walk_list.eq_def]
  simp [Elem.tag, ignore_tags, strip_tags]

/-- Unfolding: a circle child is handled and folded in measure mode. -/
theorem walk_circle_cons (bm : Bool) (xo yo : ℚ) (acc : Bounds) (cx cy r : ℚ)
    (rest : List Elem) :
    walk_list bm xo yo acc (Elem.circle cx cy r :: rest) =
      consOk (Elem.circle (handle_circle cx cy bm xo yo).1.1
          (handle_circle cx cy bm xo yo).1.2 r)
        (walk_list bm xo yo
          (if bm then update_bounds acc (handle_circle cx cy bm xo yo).2 else acc)
          rest) := by
  rw [walk_list.eq_def]
  simp [Elem.tag, ignore_tags, strip_tags]

/-- Unfolding: an ignore-tagged element (which can only be a `misc` tag) is
kept and skipped. -/
theorem walk_ignore_misc {t : String} (h : t ∈ ignore_tags) (bm : Bool) (xo yo : ℚ)
    (acc : Bounds) (rest : List Elem) :
    walk_list bm xo yo acc (Elem.misc t :: rest) =
      consOk (Elem.misc t) (walk_list bm xo yo acc rest) := by
  rw [walk_list.eq_def]
  simp [Elem.tag, h]

/-- Mode-resolved unfolding of `walk_group_cons` for the measure pass. -/
theorem walk_group_measure (xo yo : ℚ) (acc : Bounds) (cs rest : List Elem) :
    walk_list true xo yo acc (Elem.group cs :: rest) =
      match walk_list true xo yo emptyBounds cs with
      | .error msg => .error msg
      | .ok (cs2, gb) =>
        consOk (Elem.group cs2) (walk_list true xo yo (merge_bounds acc gb) rest) := by
  rw [walk_group_cons]
  rfl

/-- Mode-resolved unfolding of `walk_group_cons` for the transform pass. -/
theorem walk_group_transform (xo yo : ℚ) (acc : Bounds) (cs rest : List Elem) :
    walk_list false xo yo acc (Elem.group cs :: rest) =
      match walk_list false xo yo emptyBounds cs with
      | .error msg => .error msg
      | .ok (cs2, _) =>
        consOk (Elem.group cs2) (walk_list false xo yo acc rest) := by
  rw [walk_group_cons]
  rfl

/-- Mode-resolved unfolding of `walk_path_cons` for the measure pass. -/
theorem walk_path_measure (xo yo : ℚ) (acc : Bounds) (cmds : List PathCmd)
    (rest : List Elem) :
    walk_list true xo yo acc (Elem.path cmds :: rest) =
      match handle_path cmds true xo yo with
      | .error msg => .error msg
      | .ok (cmds2, pb) =>
        consOk (Elem.path cmds2) (walk_list true xo yo (merge_bounds acc pb) rest) := by
  rw [walk_path_cons]
  rfl

/-- Mode-resolved unfolding of `walk_path_cons` for the transform pass. -/
theorem walk_path_transform (xo yo : ℚ) (acc : Bounds) (cmds : List PathCmd)
    (rest : List Elem) :
    walk_list false xo yo acc (Elem.path cmds :: rest) =
      match handle_path cmds false xo yo with
      | .error msg => .error msg
      | .ok (cmds2, _) =>
        consOk (Elem.path cmds2) (walk_list false xo yo acc rest) := by
  rw [walk_path_cons]
  rfl

/-- Mode-resolved unfolding of `walk_circle_cons` for the measure pass. -/
theorem walk_circle_measure (xo yo : ℚ) (acc : Bounds) (cx cy r : ℚ)
    (rest : List Elem) :
    walk_list true xo yo acc (Elem.circle cx cy r :: rest) =
      consOk (Elem.circle cx cy r)
        (walk_list true xo yo (update_bounds acc (cx, cy)) rest) := by
  rw [walk_circle_cons]
  rfl

/-- Mode-resolved unfolding of `walk_circle_cons` for the transform pass. -/
theorem walk_circle_transform (xo yo : ℚ) (acc : Bounds) (cx cy r : ℚ)
    (rest : List Elem) :
    walk_list false xo yo acc (Elem.circle cx cy r :: rest) =
      consOk (Elem.circle (cx + xo) (cy + yo) r) (walk_list false xo yo acc rest) := by
  rw [walk_circle_cons]
  rfl

/-- Unfolding: a child with an unrecognized tag aborts. -/
theorem walk_misc_err {t : String} (h1 : t ∉ ignore_tags) (h2 : t ∉ strip_tags)
    (bm : Bool) (xo yo : ℚ) (acc : Bounds) (rest : List Elem) :
    walk_list bm xo yo acc (Elem.misc t :: rest) =
      .error "Encountered unknown element" := by
  rw [walk_list.eq_def]
  simp [Elem.tag, h1, h2]

/-- Unfolding: the head of a strip-free list together with the tail check. -/
theorem noStripL_cons (e : Elem) (rest : List Elem) :
    noStripL (e :: rest) =
      ((match e with
        | .group cs => noStripL cs
        | .misc t => !(decide (t ∈ strip_tags))
        | _ => true) && noStripL rest) := by
  rw [noStripL.eq_def]

/-- Measure-mode success of the command loop forces every command to be of a
supported type. -/
theorem handle_path_go_supported (xo yo : ℚ) :
    ∀ (cmds : List PathCmd) (acc : Bounds) (l : List PathCmd) (b : Bounds),
      handle_path_go true xo yo acc cmds = .ok (l, b) →
      ∀ c ∈ cmds, c.supported = true := by
  intro cmds
  induction cmds with
  | nil =>
    intro acc l b hok c hc
    simp at hc
  | cons c rest ih =>
    intro acc l b hok d hd
    by_cases hs : c.supported
    · rcases List.mem_cons.mp hd with rfl | hd2
      · exact hs
      · simp only [handle_path_go, hs, Bool.not_true, Bool.false_eq_true, if_false,
          ite_true, if_true] at hok
        cases hgo : handle_path_go true xo yo
            (update_bounds (update_bounds acc c.start) c.endP) rest with
        | error msg => rw [hgo] at hok; exact absurd hok (by simp [consOk])
        | ok p => exact ih _ p.1 p.2 (by rw [hgo]) d hd2
    · simp [handle_path_go, hs] at hok

/-- Shifting start and end does not change the command type. -/
theorem manip_supported (c : PathCmd) (dx dy : ℚ) :
    (manip_start_end c dx dy).supported = c.supported := by
  cases c <;> rfl

/-- The start point of a shifted command. -/
theorem manip_start (c : PathCmd) (dx dy : ℚ) :
    (manip_start_end c dx dy).start = shiftPoint dx dy c.start := by
  cases c <;> rfl

/-- The end point of a shifted command. -/
theorem manip_endP (c : PathCmd) (dx dy : ℚ) :
    (manip_start_end c dx dy).endP = shiftPoint dx dy c.endP := by
  cases c <;> rfl

/-- On a list of supported commands the command loop measures successfully and
leaves the list alone; transform mode shifts every command and leaves the
bound accumulator alone; and re-measuring the shifted commands yields exactly
the shifted bounds. -/
theorem handle_path_go_roundtrip (dx dy : ℚ) :
    ∀ (cmds : List PathCmd) (acc : Bounds),
      (∀ c ∈ cmds, c.supported = true) →
      ∃ b : Bounds,
        handle_path_go true 0 0 acc cmds = .ok (cmds, b) ∧
        (∀ accT, handle_path_go false dx dy accT cmds =
          .ok (cmds.map (fun c => manip_start_end c dx dy), accT)) ∧
        handle_path_go true 0 0 (shiftBounds dx dy acc)
            (cmds.map (fun c => manip_start_end c dx dy)) =
          .ok (cmds.map (fun c => manip_start_end c dx dy), shiftBounds dx dy b) := by
  intro cmds
  induction cmds with
  | nil =>
    intro acc h
    exact ⟨acc, rfl, fun accT => rfl, rfl⟩
  | cons c rest ih =>
    intro acc h
    have hc : c.supported = true := h c (List.mem_cons_self c rest)
    obtain ⟨b, hm, ht, hr⟩ := ih (update_bounds (update_bounds acc c.start) c.endP)
      (fun d hd => h d (List.mem_cons_of_mem c hd))
    refine ⟨b, ?_, ?_, ?_⟩
    · simp only [handle_path_go, hc, Bool.not_true, Bool.false_eq_true, if_false,
        ite_true, if_true]
      rw [hm]
      rfl
    · intro accT
      simp only [handle_path_go, hc, Bool.not_true, Bool.false_eq_true, if_false,
        ite_true, if_true]
      rw [ht accT]
      rfl
    · simp only [List.map_cons, handle_path_go, manip_supported, hc, Bool.not_true,
        Bool.false_eq_true, if_false, ite_true, if_true, manip_start, manip_endP]
      rw [update_bounds_shift, update_bounds_shift, hr]
      rfl

/-- Core of the measure/transform round trip, by strong induction on the size
of the child list: on a strip-free list, a successful measure pass returns the
list untouched, the transform pass succeeds (returning its own accumulator
unchanged and a strip-free list), and re-measuring the transformed list from
a shifted accumulator yields exactly the shifted bounds. -/
theorem walk_roundtrip_aux (dx dy : ℚ) :
    ∀ (n : ℕ) (cs : List Elem), sizeOf cs ≤ n → noStripL cs = true →
    ∀ (acc : Bounds) (cs1 : List Elem) (b : Bounds),
      walk_list true 0 0 acc cs = .ok (cs1, b) →
      cs1 = cs ∧
      ∃ cs2 : List Elem, noStripL cs2 = true ∧
        (∀ accT, walk_list false dx dy accT cs = .ok (cs2, accT)) ∧
        walk_list true 0 0 (shiftBounds dx dy acc) cs2 =
          .ok (cs2, shiftBounds dx dy b) := by
  intro n
  induction n with
  | zero =>
    intro cs hsz
    exfalso
    cases cs <;> simp at hsz
  | succ n ihn =>
    intro cs hsz hns acc cs1 b hm
    cases cs with
    | nil =>
      rw [walk_nil] at hm
      simp only [Except.ok.injEq, Prod.mk.injEq] at hm
      obtain ⟨hm1, hm2⟩ := hm
      subst hm1 hm2
      exact ⟨rfl, [], by simp [noStripL], fun accT => walk_nil false dx dy accT,
        walk_nil true 0 0 _⟩
    | cons e rest =>
      have hszrest : sizeOf rest ≤ n := by simp at hsz; omega
      cases e with
      | group cs1g =>
        rw [noStripL_cons] at hns
        simp only [Bool.and_eq_true] at hns
        obtain ⟨hns1, hns2⟩ := hns
        have hszg : sizeOf cs1g ≤ n := by simp at hsz; omega
        rw [walk_group_measure] at hm
        cases hcs : walk_list true 0 0 emptyBounds cs1g with
        | error msg => rw [hcs] at hm; exact absurd hm (by simp)
        | ok p =>
          obtain ⟨csA, gb⟩ := p
          rw [hcs] at hm
          simp only [] at hm
          cases hrest : walk_list true 0 0 (merge_bounds acc gb) rest with
          | error msg => rw [hrest] at hm; exact absurd hm (by simp [consOk])
          | ok q =>
            obtain ⟨l, br⟩ := q
            rw [hrest] at hm
            simp only [consOk, Except.ok.injEq, Prod.mk.injEq] at hm
            obtain ⟨hm1, hm2⟩ := hm
            obtain ⟨hA, csB, hnsB, htB, hrB⟩ := ihn cs1g hszg hns1 emptyBounds csA gb hcs
            obtain ⟨hl, cs2r, hns2r, ht2, hr2⟩ :=
              ihn rest hszrest hns2 (merge_bounds acc gb) l br hrest
            subst hA hl hm2
            refine ⟨hm1.symm, Elem.group csB :: cs2r, ?_, ?_, ?_⟩
            · rw [noStripL_cons]; simp [hnsB, hns2r]
            · intro accT
              rw [walk_group_transform, htB emptyBounds, ht2 accT]
              rfl
            · rw [shiftBounds_empty] at hrB
              rw [walk_group_measure, hrB]
              simp only []
              rw [merge_bounds_shift, hr2]
              rfl
      | path cmds =>
        rw [noStripL_cons] at hns
        simp only [Bool.and_eq_true, true_and] at hns
        rw [walk_path_measure] at hm
        cases hp : handle_path cmds true 0 0 with
        | error msg => rw [hp] at hm; exact absurd hm (by simp)
        | ok p =>
          obtain ⟨cl, pb⟩ := p
          rw [hp] at hm
          simp only [] at hm
          cases hrest : walk_list true 0 0 (merge_bounds acc pb) rest with
          | error msg => rw [hrest] at hm; exact absurd hm (by simp [consOk])
          | ok q =>
            obtain ⟨l, br⟩ := q
            rw [hrest] at hm
            simp only [consOk, Except.ok.injEq, Prod.mk.injEq] at hm
            obtain ⟨hm1, hm2⟩ := hm
            have hsup := handle_path_go_supported 0 0 cmds emptyBounds cl pb
              (by simpa [handle_path] using hp)
            obtain ⟨pb2, hpm, hpt, hpr⟩ := handle_path_go_roundtrip dx dy cmds emptyBounds hsup
            have hid : cmds = cl ∧ pb2 = pb := by
              have h2 : Except.ok (ε := String) (cmds, pb2) = .ok (cl, pb) := by
                rw [← hpm]; simpa [handle_path] using hp
              simp only [Except.ok.injEq, Prod.mk.injEq] at h2
              exact h2
            obtain ⟨hid1, hid2⟩ := hid
            subst hid1 hid2
            obtain ⟨hl, cs2r, hns2r, ht2, hr2⟩ :=
              ihn rest hszrest hns (merge_bounds acc pb2) l br hrest
            subst hl hm2
            refine ⟨hm1.symm,
              Elem.path (cmds.map (fun c => manip_start_end c dx dy)) :: cs2r, ?_, ?_, ?_⟩
            · rw [noStripL_cons]; simpa using hns2r
            · intro accT
              rw [walk_path_transform]
              have hpt2 : handle_path cmds false dx dy =
                  .ok (cmds.map (fun c => manip_start_end c dx dy), emptyBounds) := by
                simpa [handle_path] using hpt emptyBounds
              rw [hpt2, ht2 accT]
              rfl
            · rw [walk_path_measure]
              rw [shiftBounds_empty] at hpr
              have hpr2 : handle_path (cmds.map (fun c => manip_start_end c dx dy)) true 0 0 =
                  .ok (cmds.map (fun c => manip_start_end c dx dy), shiftBounds dx dy pb2) := by
                simpa [handle_path] using hpr
              rw [hpr2]
              simp only []
              rw [merge_bounds_shift, hr2]
              rfl
      | circle cx cy r =>
        rw [noStripL_cons] at hns
        simp only [Bool.and_eq_true, true_and] at hns
        rw [walk_circle_measure] at hm
        cases hrest : walk_list true 0 0 (update_bounds acc (cx, cy)) rest with
        | error msg => rw [hrest] at hm; exact absurd hm (by simp [consOk])
        | ok q =>
          obtain ⟨l, br⟩ := q
          rw [hrest] at hm
          simp only [consOk, Except.ok.injEq, Prod.mk.injEq] at hm
          obtain ⟨hm1, hm2⟩ := hm
          obtain ⟨hl, cs2r, hns2r, ht2, hr2⟩ :=
            ihn rest hszrest hns (update_bounds acc (cx, cy)) l br hrest
          subst hl hm2
          refine ⟨hm1.symm, Elem.circle (cx + dx) (cy + dy) r :: cs2r, ?_, ?_, ?_⟩
          · rw [noStripL_cons]; simpa using hns2r
          · intro accT
            rw [walk_circle_transform, ht2 accT]
            rfl
          · rw [walk_circle_measure]
            have hupd : update_bounds (shiftBounds dx dy acc) (cx + dx, cy + dy) =
                shiftBounds dx dy (update_bounds acc (cx, cy)) := by
              simpa [shiftPoint] using update_bounds_shift dx dy acc (cx, cy)
            rw [hupd, hr2]
            rfl
      | misc t =>
        rw [noStripL_cons] at hns
        simp only [Bool.and_eq_true, Bool.not_eq_true', decide_eq_false_iff_not] at hns
        obtain ⟨hnst, hns2⟩ := hns
        by_cases hig : t ∈ ignore_tags
        · rw [walk_ignore_misc hig] at hm
          cases hrest : walk_list true 0 0 acc rest with
          | error msg => rw [hrest] at hm; exact absurd hm (by simp [consOk])
          | ok q =>
            obtain ⟨l, br⟩ := q
            rw [hrest] at hm
            simp only [consOk, Except.ok.injEq, Prod.mk.injEq] at hm
            obtain ⟨hm1, hm2⟩ := hm
            obtain ⟨hl, cs2r, hns2r, ht2, hr2⟩ := ihn rest hszrest hns2 acc l br hrest
            subst hl hm2
            refine ⟨hm1.symm, Elem.misc t :: cs2r, ?_, ?_, ?_⟩
            · rw [noStripL_cons]; simp [hnst, hns2r]
            · intro accT
              rw [walk_ignore_misc hig, ht2 accT]
              rfl
            · rw [walk_ignore_misc hig, hr2]
              rfl
        · rw [walk_misc_err hig hnst] at hm
          exact absurd hm (by simp)

/-- C1 (code bug): `merge_bounds` gates the update of every destination field
on the presence of the source's min-X alone, so a source box whose min-X is
unset but whose min-Y, max-X and max-Y are set leaves the destination entirely
unchanged, against the spec's requirement that each of the four fields be
merged based on that same field's own presence. -/
theorem merge_bounds_minX_gate_bug :
    merge_bounds ⟨some 1, some 1, some 1, some 1⟩ ⟨none, some 0, some 99, some 99⟩ =
      ⟨some 1, some 1, some 1, some 1⟩ := by
  decide

/-- C4 (counterexample): the round trip fails on a tree the walker accepts.
A strip-tagged text element followed by a path makes the measure pass remove
the text and skip the path, so the measured box is empty; the transform pass
then shifts the path (the text is already gone), and re-measuring yields the
path's shifted box, which is not the empty box shifted by (3, 4). -/
theorem roundtrip_strip_cex :
    walk_list true 0 0 emptyBounds
        [Elem.misc "text", Elem.path [PathCmd.line (0, 0) (10, 10)]] =
      .ok ([Elem.path [PathCmd.line (0, 0) (10, 10)]], emptyBounds) ∧
    walk_list false 3 4 emptyBounds [Elem.path [PathCmd.line (0, 0) (10, 10)]] =
      .ok ([Elem.path [PathCmd.line (3, 4) (13, 14)]], emptyBounds) ∧
    walk_list true 0 0 emptyBounds [Elem.path [PathCmd.line (3, 4) (13, 14)]] =
      .ok ([Elem.path [PathCmd.line (3, 4) (13, 14)]],
        ⟨some 3, some 4, some 13, some 14⟩) ∧
    (⟨some 3, some 4, some 13, some 14⟩ : Bounds) ≠ shiftBounds 3 4 emptyBounds := by
  refine ⟨?_, ?_, ?_, by decide⟩ <;>
    simp [walk_list, Elem.tag, ignore_tags, strip_tags, consOk, handle_path,
      handle_path_go, PathCmd.supported, update_bounds, PathCmd.start, PathCmd.endP,
      merge_bounds, pyLt, pyGt, emptyBounds, manip_start_end, shiftPoint] <;>
    norm_num

/-- C4 (amended): for trees containing no strip-tagged elements, the walker's
measure pass, a transform pass with offset (dx, dy), and a re-measure pass
form an exact round trip: the re-measured box is the originally measured box
shifted by exactly (dx, dy) on each axis. -/
theorem measure_transform_roundtrip (cs cs1 cs2 : List Elem) (dx dy : ℚ)
    (b bt : Bounds)
    (hns : noStripL cs = true)
    (hm : walk_list true 0 0 emptyBounds cs = .ok (cs1, b))
    (ht : walk_list false dx dy emptyBounds cs1 = .ok (cs2, bt)) :
    walk_list true 0 0 emptyBounds cs2 = .ok (cs2, shiftBounds dx dy b) := by
  obtain ⟨h1, csB, hnsB, htr, hrm⟩ :=
    walk_roundtrip_aux dx dy (sizeOf cs) cs le_rfl hns emptyBounds cs1 b hm
  subst h1
  rw [htr emptyBounds] at ht
  simp only [Except.ok.injEq, Prod.mk.injEq] at ht
  obtain ⟨ht1, ht2⟩ := ht
  subst ht1
  rw [shiftBounds_empty] at hrm
  exact hrm

/-- Witness for the amended C4: a path plus a circle, measured, shifted by
(3, 4) and re-measured, gives the original box (1, 2, 5, 6) shifted to
(4, 6, 8, 10). -/
theorem measure_transform_roundtrip_witness :
    walk_list true 0 0 emptyBounds
        [Elem.path [PathCmd.move (4, 6) (4, 6)], Elem.circle 8 10 2] =
      .ok ([Elem.path [PathCmd.move (4, 6) (4, 6)], Elem.circle 8 10 2],
        ⟨some 4, some 6, some 8, some 10⟩) := by
  have h := measure_transform_roundtrip
    [Elem.path [PathCmd.move (1, 2) (1, 2)], Elem.circle 5 6 2]
    [Elem.path [PathCmd.move (1, 2) (1, 2)], Elem.circle 5 6 2]
    [Elem.path [PathCmd.move (4, 6) (4, 6)], Elem.circle 8 10 2]
    3 4 ⟨some 1, some 2, some 5, some 6⟩ emptyBounds
    (by simp [noStripL])
    (by simp [walk_list, Elem.tag, ignore_tags, strip_tags, consOk, handle_path,
      handle_path_go, PathCmd.supported, update_bounds, PathCmd.start, PathCmd.endP,
      merge_bounds, pyLt, pyGt, emptyBounds, handle_circle] <;> norm_num)
    (by simp [walk_list, Elem.tag, ignore_tags, strip_tags, consOk, handle_path,
      handle_path_go, PathCmd.supported, update_bounds, PathCmd.start, PathCmd.endP,
      merge_bounds, pyLt, pyGt, emptyBounds, handle_circle, manip_start_end,
      shiftPoint] <;> norm_num)
  norm_num [shiftBounds] at h
  exact h

/-- C5 (counterexample): `merge_bounds` is not commutative on arbitrary boxes.
With the partially set box A = [None, 5, None, None] and the fully set box
B = [1, 10, 3, 4], merging A into B leaves B at [1, 10, 3, 4] while merging B
into A yields [1, 5, 3, 4]. -/
theorem merge_bounds_not_commutative :
    merge_bounds ⟨some 1, some 10, some 3, some 4⟩ ⟨none, some 5, none, none⟩ =
      ⟨some 1, some 10, some 3, some 4⟩ ∧
    merge_bounds ⟨none, some 5, none, none⟩ ⟨some 1, some 10, some 3, some 4⟩ =
      ⟨some 1, some 5, some 3, some 4⟩ ∧
    (⟨some 1, some 10, some 3, some 4⟩ : Bounds) ≠ ⟨some 1, some 5, some 3, some 4⟩ := by
  refine ⟨by decide, by decide, by decide⟩

/-- C5 (amended): restricted to boxes that are fully set or fully unset (the
only boxes the traversal ever produces), `merge_bounds` is commutative and
associative, and merging a fully unset source box into any destination
whatsoever is a no-op. -/
theorem merge_bounds_algebra :
    (∀ a b : Bounds, a.uniform → b.uniform → merge_bounds a b = merge_bounds b a) ∧
    (∀ a b c : Bounds, a.uniform → b.uniform → c.uniform →
      merge_bounds (merge_bounds a b) c = merge_bounds a (merge_bounds b c)) ∧
    (∀ d : Bounds, merge_bounds d emptyBounds = d) := by
  refine ⟨?_, ?_, merge_bounds_empty_src⟩
  · rintro a b (rfl | ⟨a0, a1, a2, a3, rfl⟩) (rfl | ⟨b0, b1, b2, b3, rfl⟩) <;>
      simp [merge_bounds_empty_src, merge_bounds_empty_dest, merge_bounds_full,
        min_comm, max_comm]
  · rintro a b c (rfl | ⟨a0, a1, a2, a3, rfl⟩) (rfl | ⟨b0, b1, b2, b3, rfl⟩)
      (rfl | ⟨c0, c1, c2, c3, rfl⟩) <;>
      simp [merge_bounds_empty_src, merge_bounds_empty_dest, merge_bounds_full,
        min_assoc, max_assoc]

/-- Witness for the amended C5 at concrete boxes. -/
theorem merge_bounds_algebra_witness :
    merge_bounds ⟨some 1, some 2, some 3, some 4⟩ ⟨some 0, some 6, some 2, some 9⟩ =
      merge_bounds ⟨some 0, some 6, some 2, some 9⟩ ⟨some 1, some 2, some 3, some 4⟩ ∧
    merge_bounds
        (merge_bounds ⟨some 1, some 2, some 3, some 4⟩ ⟨some 0, some 6, some 2, some 9⟩)
        ⟨some 5, some 5, some 5, some 5⟩ =
      merge_bounds ⟨some 1, some 2, some 3, some 4⟩
        (merge_bounds ⟨some 0, some 6, some 2, some 9⟩ ⟨some 5, some 5, some 5, some 5⟩) ∧
    merge_bounds ⟨some 1, some 2, some 3, some 4⟩ emptyBounds =
      ⟨some 1, some 2, some 3, some 4⟩ := by
  obtain ⟨hcomm, hassoc, hnoop⟩ := merge_bounds_algebra
  exact ⟨hcomm _ _ (Or.inr ⟨1, 2, 3, 4, rfl⟩) (Or.inr ⟨0, 6, 2, 9, rfl⟩),
    hassoc _ _ _ (Or.inr ⟨1, 2, 3, 4, rfl⟩) (Or.inr ⟨0, 6, 2, 9, rfl⟩)
      (Or.inr ⟨5, 5, 5, 5, rfl⟩),
    hnoop _⟩

/-- C3 (counterexample): the scaling analysis compares the two ratios with
exact inequality, so a Y ratio exceeding the X ratio by only one part in a
hundred billion, far below any negligible epsilon, already aborts the run. -/
theorem analyze_scaling_exact_cex :
    analyze_scaling_core 100 (100 + 1 / 1000000000) 100 100 =
      .error "Unequal X/Y scaling is not supported" ∧
    (100 + 1 / 1000000000 : ℚ) / 100 - 100 / 100 = 1 / 100000000000 := by
  constructor
  · norm_num [analyze_scaling_core]
  · norm_num

/-- C3 (amended): with resolvable dimensions, scaling analysis succeeds,
returning the X ratio as the millimeters-per-unit factor, exactly when the Y
ratio equals the X ratio exactly; any difference at all, however small,
aborts the run. -/
theorem analyze_scaling_exact (w h vw vh : ℚ) (_hvw : vw ≠ 0) (_hvh : vh ≠ 0) :
    (analyze_scaling_core w h vw vh = .ok (w, h, w / vw) ↔ h / vh = w / vw) ∧
    (h / vh ≠ w / vw →
      analyze_scaling_core w h vw vh = .error "Unequal X/Y scaling is not supported") := by
  dsimp only [analyze_scaling_core]
  constructor
  · split_ifs with hne
    · simp only [reduceCtorEq, false_iff]
      exact hne
    · simp only [Except.ok.injEq, true_iff]
      exact not_not.mp hne
  · intro hne
    simp [hne]

/-- Witness for the amended C3 at a concrete anisotropy-free document. -/
theorem analyze_scaling_exact_witness :
    analyze_scaling_core 120 60 240 120 = .ok (120, 60, 120 / 240) := by
  exact (analyze_scaling_exact 120 60 240 120 (by norm_num) (by norm_num)).1.mpr
    (by norm_num)

/-- C8: the layout computation forces the border gap to zero whenever the
border thickness is zero, and on border 5, gap 1.5, one millimeter per unit
and measured box (0, 0, 100, 50) it yields offsets 6.5, internal canvas
113 by 63, and a border rectangle at (2.5, 2.5) of size 108 by 58 with
stroke width 5 (hence inset 2.5 from every canvas edge). -/
theorem layout_plan_spec :
    (∀ minX minY maxX maxY gap s : ℚ,
      layout_plan minX minY maxX maxY 0 gap s = layout_plan minX minY maxX maxY 0 0 s) ∧
    layout_plan 0 0 100 50 5 (3 / 2) 1 =
      { x_off := 13 / 2, y_off := 13 / 2, uuwidth := 113, uuheight := 63,
        mmwidth := 113, mmheight := 63, rect_x := 5 / 2, rect_y := 5 / 2,
        rect_w := 108, rect_h := 58, rect_stroke := 5 } := by
  constructor
  · intro minX minY maxX maxY gap s
    simp [layout_plan]
  · norm_num [layout_plan]

/-- C9: for every content size and padding, each of the nine anchors places
each axis at padding (left/top), half the page extent minus half the content
extent (center), or page extent minus content extent minus padding
(right/bottom), all in millimeters scaled by the points-per-millimeter
constant; in particular anchor BR with page 210 by 297, padding 10 and
content 50 by 30 lands at (150, 257) millimeters. -/
theorem decide_svg_xy_spec :
    (∀ w h p : ℚ,
      decide_svg_xy w h p "TL" = some (p * mm, p * mm) ∧
      decide_svg_xy w h p "TC" = some ((210 / 2 - w / 2) * mm, p * mm) ∧
      decide_svg_xy w h p "TR" = some ((210 - w - p) * mm, p * mm) ∧
      decide_svg_xy w h p "CL" = some (p * mm, (297 / 2 - h / 2) * mm) ∧
      decide_svg_xy w h p "CC" = some ((210 / 2 - w / 2) * mm, (297 / 2 - h / 2) * mm) ∧
      decide_svg_xy w h p "CR" = some ((210 - w - p) * mm, (297 / 2 - h / 2) * mm) ∧
      decide_svg_xy w h p "BL" = some (p * mm, (297 - h - p) * mm) ∧
      decide_svg_xy w h p "BC" = some ((210 / 2 - w / 2) * mm, (297 - h - p) * mm) ∧
      decide_svg_xy w h p "BR" = some ((210 - w - p) * mm, (297 - h - p) * mm)) ∧
    decide_svg_xy 50 30 10 "BR" = some (150 * mm, 257 * mm) := by
  constructor
  · intro w h p
    refine ⟨?_, ?_, ?_, ?_, ?_, ?_, ?_, ?_, ?_⟩ <;>
      simp only [decide_svg_xy, A4, Prod.ext_iff, String.reduceEq, if_true, if_false,
        reduceIte, Option.some.injEq] <;>
      constructor <;> ring
  · simp only [decide_svg_xy, A4, Prod.ext_iff, String.reduceEq, if_true, if_false,
      reduceIte, Option.some.injEq]
    constructor <;> ring

/-- C7: the circle handler in measure mode never reads the radius and
contributes exactly the degenerate box of the center: folding the center into
a bound array is the same as merging the degenerate box (cx, cy, cx, cy), and
walking a group holding one circle yields that degenerate box whatever the
radius attribute holds. -/
theorem circle_degenerate_box :
    (∀ (b : Bounds) (cx cy : ℚ),
      update_bounds b (cx, cy) = merge_bounds b ⟨some cx, some cy, some cx, some cy⟩) ∧
    (∀ cx cy r : ℚ,
      walk_list true 0 0 emptyBounds [Elem.circle cx cy r] =
        .ok ([Elem.circle cx cy r], ⟨some cx, some cy, some cx, some cy⟩)) := by
  constructor
  · intro b cx cy
    obtain ⟨b0, b1, b2, b3⟩ := b
    cases b0 <;> cases b1 <;> cases b2 <;> cases b3 <;>
      simp [update_bounds, merge_bounds, pyLt, pyGt]
  · intro cx cy r
    simp [walk_list, Elem.tag, ignore_tags, strip_tags, handle_circle, consOk,
      update_bounds, emptyBounds]

/-- Commands with the same skeleton pass the same supported-type test. -/
theorem skeleton_supported {c c' : PathCmd} (h : c.skeleton = c'.skeleton) :
    c.supported = c'.supported := by
  cases c <;> cases c' <;> simp_all [PathCmd.skeleton, PathCmd.kind, PathCmd.supported]

/-- In measure mode the bounds computed by the command loop depend only on the
skeletons (type, start, end) of the commands, never on control data. -/
theorem handle_path_go_skeleton (xo yo : ℚ) :
    ∀ (cmds cmds' : List PathCmd) (acc : Bounds),
      cmds.map PathCmd.skeleton = cmds'.map PathCmd.skeleton →
      (handle_path_go true xo yo acc cmds).map Prod.snd =
        (handle_path_go true xo yo acc cmds').map Prod.snd := by
  intro cmds
  induction cmds with
  | nil =>
    intro cmds' acc h
    cases cmds' with
    | nil => rfl
    | cons c' rest' => simp at h
  | cons c rest ih =>
    intro cmds' acc h
    cases cmds' with
    | nil => simp at h
    | cons c' rest' =>
      simp only [List.map_cons, List.cons.injEq] at h
      obtain ⟨hc, hrest⟩ := h
      have hsup := skeleton_supported hc
      obtain ⟨hk, ⟨hs1, hs2⟩, he1, he2⟩ :
          c.kind = c'.kind ∧
            (c.start.1 = c'.start.1 ∧ c.start.2 = c'.start.2) ∧
            c.endP.1 = c'.endP.1 ∧ c.endP.2 = c'.endP.2 := by
        simpa [PathCmd.skeleton, Prod.ext_iff] using hc
      have hstart : c.start = c'.start := Prod.ext hs1 hs2
      have hendp : c.endP = c'.endP := Prod.ext he1 he2
      simp only [handle_path_go, ← hsup, ← hstart, ← hendp]
      by_cases hs : c.supported
      · simp only [hs, Bool.not_true, Bool.false_eq_true, if_false, if_true,
          ite_true, consOk_map_snd]
        exact ih rest' _ hrest
      · simp [hs]

/-- C6: the measure-mode path handler folds the bounds update over the start
and end point of every command and over nothing else, so two command lists
agreeing on type, start and end pointwise (however their curve control data
differ) yield identical boxes; the concrete path Move(0,0), Line to (10,0),
Line to (10,10), Close measures to the box (0, 0, 10, 10). -/
theorem path_bounds_endpoints_only :
    (∀ (cmds cmds' : List PathCmd) (xo yo : ℚ),
      cmds.map PathCmd.skeleton = cmds'.map PathCmd.skeleton →
      (handle_path cmds true xo yo).map Prod.snd =
        (handle_path cmds' true xo yo).map Prod.snd) ∧
    handle_path [PathCmd.move (0, 0) (0, 0), PathCmd.line (0, 0) (10, 0),
        PathCmd.line (10, 0) (10, 10), PathCmd.close (10, 10) (0, 0)] true 0 0 =
      .ok ([PathCmd.move (0, 0) (0, 0), PathCmd.line (0, 0) (10, 0),
        PathCmd.line (10, 0) (10, 10), PathCmd.close (10, 10) (0, 0)],
        ⟨some 0, some 0, some 10, some 10⟩) := by
  constructor
  · intro cmds cmds' xo yo h
    exact handle_path_go_skeleton xo yo cmds cmds' emptyBounds h
  · rfl

/-- Witness for C6: two cubic curves differing only in their control points
measure to the same box. -/
theorem path_bounds_endpoints_only_witness :
    (handle_path [PathCmd.cubic (0, 0) (50, 99) (-7, 3) (10, 10)] true 0 0).map Prod.snd =
      (handle_path [PathCmd.cubic (0, 0) (1, 2) (3, 4) (10, 10)] true 0 0).map Prod.snd := by
  exact path_bounds_endpoints_only.1 _ _ 0 0 (by decide)

/-- C10: removing a strip-tagged child while iterating makes the loop skip the
sibling right behind it: the walk continues past that sibling as if it had
already been visited, so it is kept unprocessed, contributes no bounds, is
not shifted, and raises no error even when its tag is unknown; concretely,
a text element followed by an unknown element passes the walk while the
unknown element alone aborts it. -/
theorem strip_skips_next_sibling :
    (∀ (bm : Bool) (xo yo : ℚ) (acc : Bounds) (f : Elem) (rest : List Elem),
      walk_list bm xo yo acc (Elem.misc "text" :: f :: rest) =
        consOk f (walk_list bm xo yo acc rest)) ∧
    walk_list true 0 0 emptyBounds [Elem.misc "text", Elem.misc "blob"] =
      .ok ([Elem.misc "blob"], emptyBounds) ∧
    walk_list true 0 0 emptyBounds [Elem.misc "blob"] =
      .error "Encountered unknown element" := by
  refine ⟨?_, ?_, ?_⟩
  · intro bm xo yo acc f rest
    rw [walk_list.eq_def]
    simp [Elem.tag, ignore_tags, strip_tags]
  · simp [walk_list, Elem.tag, ignore_tags, strip_tags, consOk]
  · simp [walk_list, Elem.tag, ignore_tags, strip_tags]

/-- C2 (counterexample): a root whose only top-level child is an unknown
element (here a rect) is measured without any error: the measuring loop of
`main` recurses only into children tagged `g` and silently skips everything
else, so no `UnknownElement` failure is raised. -/
theorem unknown_top_level_cex :
    measure_root [Elem.misc "rect"] = .ok ([Elem.misc "rect"], emptyBounds) := by
  simp [measure_root, measure_root_go, consOk]

/-- C2 (amended): a top-level child of the root that is not a group is skipped
by the measure pass without error and without being touched; the
`UnknownElement` failure is raised only when an unrecognized tag is reached as
the child of a walked group. -/
theorem unknown_element_raised_in_groups :
    (∀ (e : Elem) (rest : List Elem) (gb : Bounds),
      (∀ cs, e ≠ Elem.group cs) →
      measure_root_go gb (e :: rest) = consOk e (measure_root_go gb rest)) ∧
    (∀ (bm : Bool) (xo yo : ℚ) (acc : Bounds) (t : String) (rest : List Elem),
      t ∉ ignore_tags → t ∉ strip_tags →
      walk_list bm xo yo acc (Elem.misc t :: rest) =
        .error "Encountered unknown element") := by
  constructor
  · intro e rest gb hne
    match e with
    | Elem.group cs => exact absurd rfl (hne cs)
    | Elem.path cmds => rfl
    | Elem.circle cx cy r => rfl
    | Elem.misc t => rfl
  · intro bm xo yo acc t rest h1 h2
    rw [walk_list.eq_def]
    simp [Elem.tag, h1, h2]

/-- Witness for the amended C2: a rect is skipped at top level but aborts the
walk inside a group. -/
theorem unknown_element_raised_in_groups_witness :
    measure_root_go emptyBounds [Elem.misc "rect"] =
      consOk (Elem.misc "rect") (measure_root_go emptyBounds []) ∧
    walk_list true 0 0 emptyBounds [Elem.misc "rect"] =
      .error "Encountered unknown element" := by
  obtain ⟨h1, h2⟩ := unknown_element_raised_in_groups
  exact ⟨h1 _ _ _ (fun cs h => Elem.noConfusion h),
    h2 _ _ _ _ _ _ (by decide) (by decide)⟩

end LayoutPostproc
